import Mathlib

/-!
Verification development for the audio segment editor of the sentiment-analysis
UI (the `VoiceAnalyzer` component and its `audioBufferToWav` helper).

The JavaScript number type is modelled by `ℚ` (exact arithmetic); machine
integers written into the WAV byte stream are modelled as `ℕ`/`ℤ` with explicit
reductions modulo `2^16` / `2^32` where the `DataView` writes truncate.
A decoded `AudioBuffer` is modelled by `SampleBuffer`: sample rate, channel
count, frame count, and a total function giving each channel's sample at each
(integer) index, standing for `getChannelData(i)[k]`.
-/

/-- Truncation toward zero of a rational, the semantics of JavaScript's
`| 0` applied to a number in int32 range (here always in `[-32768, 32767]`
because the operand was clamped to `[-1, 1]` and scaled). -/
def truncQ (q : ℚ) : ℤ := if 0 ≤ q then ⌊q⌋ else -⌊-q⌋

/-- `sample = Math.max(-1, Math.min(1, x)); sample = (sample < 0 ? sample * 0x8000 : sample * 0x7FFF) | 0`
(lines 58-59 of the encoder): clamp to `[-1, 1]`, scale asymmetrically,
truncate toward zero. -/
def convertSample (x : ℚ) : ℤ :=
  let s := max (-1) (min 1 x)
  truncQ (if s < 0 then s * 0x8000 else s * 0x7FFF)

/-- Bytes written by `DataView.setInt16(_, v, true)`: the two's-complement
16-bit image of `v`, little-endian. -/
def int16LE (v : ℤ) : List ℕ :=
  [(v % 65536).toNat % 256, (v % 65536).toNat / 256]

/-- Bytes written by `DataView.setUint16(_, n, true)`. -/
def u16LE (n : ℕ) : List ℕ :=
  [n % 65536 % 256, n % 65536 / 256]

/-- Bytes written by `DataView.setUint32(_, n, true)`. -/
def u32LE (n : ℕ) : List ℕ :=
  [n % 4294967296 % 256, n % 4294967296 / 256 % 256,
   n % 4294967296 / 65536 % 256, n % 4294967296 / 16777216 % 256]

/-- Model of a decoded `AudioBuffer`: `sampleRate`, `numberOfChannels`,
`length` (total frame count), and per-channel sample data
(`channelData ch k` is `getChannelData(ch)[k]`, as a total function). -/
structure SampleBuffer where
  sampleRate : ℕ
  numberOfChannels : ℕ
  length : ℕ
  channelData : ℕ → ℤ → ℚ

/-- `startSample = Math.floor(start * sampleRate)` (line 10). -/
def startSample (b : SampleBuffer) (start : ℚ) : ℤ :=
  ⌊start * (b.sampleRate : ℚ)⌋

/-- `endSample = Math.floor(end * sampleRate)` (line 11). -/
def endSample (b : SampleBuffer) (endT : ℚ) : ℤ :=
  ⌊endT * (b.sampleRate : ℚ)⌋

/-- `actualEndSample = Math.min(endSample, buffer.length)` (line 13). -/
def actualEndSample (b : SampleBuffer) (endT : ℚ) : ℤ :=
  min (endSample b endT) (b.length : ℤ)

/-- `frameCount = actualEndSample - startSample` (line 14). -/
def frameCount (b : SampleBuffer) (start endT : ℚ) : ℤ :=
  actualEndSample b endT - startSample b start

/-- The 44-byte RIFF/WAVE header written by the `setUint16`/`setUint32`
sequence of lines 33-47, for total byte length `len`, sample rate `rate`
and channel count `ch`.  At the final write the position counter `pos`
is 40, so `length - pos - 4` is `len - 44`. -/
def wavHeader (len rate ch : ℕ) : List ℕ :=
  u32LE 0x46464952 ++      -- "RIFF"
  u32LE (len - 8) ++       -- file length - 8
  u32LE 0x45564157 ++      -- "WAVE"
  u32LE 0x20746d66 ++      -- "fmt " chunk
  u32LE 16 ++              -- fmt chunk length
  u16LE 1 ++               -- PCM (uncompressed)
  u16LE ch ++              -- numChannels
  u32LE rate ++            -- sampleRate
  u32LE (rate * 2 * ch) ++ -- avg. bytes/sec
  u16LE (ch * 2) ++        -- block-align
  u16LE 16 ++              -- 16-bit
  u32LE 0x61746164 ++      -- "data" chunk
  u32LE (len - 44)         -- data chunk length  (length - pos - 4, pos = 40)

/-- The interleaved 16-bit sample data written by the while loop of
lines 54-64: frames from `startSample` to `actualEndSample - 1` in order,
channels interleaved within each frame. -/
def wavFrames (b : SampleBuffer) (start endT : ℚ) : List ℕ :=
  (List.range (frameCount b start endT).toNat).flatMap fun f =>
    (List.range b.numberOfChannels).flatMap fun ch =>
      int16LE (convertSample (b.channelData ch (startSample b start + f)))

/-- `audioBufferToWav` (lines 8-67): the full output byte stream of the WAV
encoder, an empty stream when the computed frame count is `≤ 0` (line 16),
otherwise the 44-byte header followed by the interleaved sample data
(`length = frameCount * numChannels * 2 + 44`, line 19). -/
def audioBufferToWav (b : SampleBuffer) (start endT : ℚ) : List ℕ :=
  if frameCount b start endT ≤ 0 then []
  else
    wavHeader ((frameCount b start endT).toNat * b.numberOfChannels * 2 + 44)
        b.sampleRate b.numberOfChannels ++
      wavFrames b start endT

/-! ## Trim selector

`trimRange` is a pair of seconds; the two sliders (lines 412-438) have
`min={0}`, `max={audioBuffer.duration}` — an HTML range input clamps its
value into `[min, max]` — and their `onChange` handlers set one bound from
the clamped slider value and the other bound of the previous window. -/

structure TrimWindow where
  startT : ℚ
  endT : ℚ
deriving DecidableEq

/-- The value delivered by a range input with `min={0}` `max={duration}`:
the raw value clamped into `[0, duration]`. -/
def sliderValue (duration t : ℚ) : ℚ := max 0 (min t duration)

/-- Start slider `onChange` (lines 418-421):
`setTrimRange(prev => ({ ...prev, start: Math.min(val, prev.end - 0.5) }))`. -/
def setStart (duration t : ℚ) (w : TrimWindow) : TrimWindow :=
  { startT := min (sliderValue duration t) (w.endT - 0.5), endT := w.endT }

/-- End slider `onChange` (lines 433-436):
`setTrimRange(prev => ({ ...prev, end: Math.max(val, prev.start + 0.5) }))`. -/
def setEnd (duration t : ℚ) (w : TrimWindow) : TrimWindow :=
  { startT := w.startT, endT := max (sliderValue duration t) (w.startT + 0.5) }

/-- `setTrimRange({ start: 0, end: decoded.duration })` in `loadAudio`
(line 128): the window covering the whole decoded buffer. -/
def resetWindow (duration : ℚ) : TrimWindow :=
  { startT := 0, endT := duration }

/-- One slider edit: which bound is moved, and the raw input value. -/
inductive TrimEdit where
  | setS (t : ℚ)
  | setE (t : ℚ)

/-- Apply one slider edit to a window (buffer duration `duration`). -/
def applyEdit (duration : ℚ) (w : TrimWindow) : TrimEdit → TrimWindow
  | .setS t => setStart duration t w
  | .setE t => setEnd duration t w

/-- Apply a sequence of slider edits, oldest first. -/
def applyEdits (duration : ℚ) (es : List TrimEdit) (w : TrimWindow) : TrimWindow :=
  es.foldl (applyEdit duration) w

/-- The trim-window invariant claimed by the spec:
`0 ≤ start`, `start + minSegmentSeconds ≤ end`, `end ≤ durationSeconds`,
with `minSegmentSeconds = 0.5`. -/
def windowInv (duration : ℚ) (w : TrimWindow) : Prop :=
  0 ≤ w.startT ∧ w.startT + 0.5 ≤ w.endT ∧ w.endT ≤ duration

/-! ## Playback engine

`playbackState`, `playbackOffset`, `startTimeRef` and `previewSourceRef`
(lines 81-91) drive the segment player.  The engine clock
(`audioContext.currentTime`) is an explicit parameter `now` of the
operations that read it.  A created `AudioBufferSourceNode` is modelled by
`AudioSource`: the (bufferOffset, duration) pair passed to
`source.start(0, trimRange.start + startOffset, playDuration)` (line 251),
whether `stop()` has been called on it, and whether its `onended` callback
is still attached.  `current` models `previewSourceRef`; `released` keeps
the sources whose reference has been dropped, so that statements about
*all* sources ever created remain expressible. -/

inductive PState where
  | playing
  | paused
  | stopped
deriving DecidableEq

structure Sched where
  bufferOffset : ℚ
  duration : ℚ
deriving DecidableEq

structure AudioSource where
  sched : Sched
  stopped : Bool
  onendedSet : Bool
deriving DecidableEq

structure EngineState where
  window : TrimWindow
  pstate : PState
  playbackOffset : ℚ
  startTime : ℚ
  current : Option AudioSource
  released : List AudioSource
deriving DecidableEq

/-- `stopPlayback` (lines 211-222): if a source reference is held, null its
`onended`, call `stop()` on it and drop the reference. -/
def stopPlayback (st : EngineState) : EngineState :=
  match st.current with
  | none => st
  | some s =>
      { st with current := none,
                released := { s with stopped := true, onendedSet := false } :: st.released }

/-- `handlePlay` (lines 224-265) at engine-clock time `now`: stop any held
source, compute `startOffset` (restart from 0 when the stored offset has
reached the window duration) and `playDuration`; when `playDuration ≤ 0`
just reset the offset; otherwise create and start a source for
`(trimRange.start + startOffset, playDuration)`, record the clock time, and
enter `playing` with offset `startOffset`.  The new source's `onended`
callback is attached (line 260). -/
def handlePlay (now : ℚ) (st : EngineState) : EngineState :=
  let st1 := stopPlayback st
  let segmentDuration := st.window.endT - st.window.startT
  let currentOffset := st.playbackOffset
  let startOffset := if currentOffset ≥ segmentDuration then 0 else currentOffset
  let playDuration := segmentDuration - startOffset
  if playDuration ≤ 0 then
    { st1 with playbackOffset := 0 }
  else
    { st1 with
        current := some { sched := { bufferOffset := st.window.startT + startOffset,
                                     duration := playDuration },
                          stopped := false, onendedSet := true },
        startTime := now,
        playbackOffset := startOffset,
        pstate := .playing }

/-- `handlePause` (lines 267-276) at engine-clock time `now`: a no-op unless
`playing`; otherwise stop the source, add the elapsed clock time since
playback began to the stored offset, and enter `paused`. -/
def handlePause (now : ℚ) (st : EngineState) : EngineState :=
  if st.pstate ≠ .playing then st
  else
    let st1 := stopPlayback st
    { st1 with playbackOffset := st.playbackOffset + (now - st.startTime),
               pstate := .paused }

/-- `handleStop` (lines 278-282): stop the source, zero the offset, enter
`stopped`, from any state. -/
def handleStop (st : EngineState) : EngineState :=
  let st1 := stopPlayback st
  { st1 with playbackOffset := 0, pstate := .stopped }

/-- The play button (lines 445-452) has `disabled={playbackState === 'playing'}`:
a click reaches `handlePlay` only when the state is not `playing`. -/
def clickPlay (now : ℚ) (st : EngineState) : EngineState :=
  if st.pstate = .playing then st else handlePlay now st

/-- The stop button (lines 463-470) has `disabled={playbackState === 'stopped'}`. -/
def clickStop (st : EngineState) : EngineState :=
  if st.pstate = .stopped then st else handleStop st

/-- `source.onended` firing (lines 260-264) on the still-referenced,
still-subscribed source: natural completion sets `stopped` state and zero
offset.  A source whose `onended` was nulled (any source in `released`)
cannot trigger this. -/
def naturalEnd (st : EngineState) : EngineState :=
  match st.current with
  | some s =>
      if s.onendedSet then { st with pstate := .stopped, playbackOffset := 0 } else st
  | none => st

/-- Moving the start slider (lines 418-421) followed by the `useEffect` on
`[trimRange.start, trimRange.end]` (lines 138-142): when the window value
actually changed and playback is not stopped, `handleStop()` runs. -/
def editStart (duration t : ℚ) (st : EngineState) : EngineState :=
  let w := setStart duration t st.window
  let st1 := { st with window := w }
  if w ≠ st.window ∧ st.pstate ≠ .stopped then handleStop st1 else st1

/-- Moving the end slider (lines 433-436) followed by the same `useEffect`. -/
def editEnd (duration t : ℚ) (st : EngineState) : EngineState :=
  let w := setEnd duration t st.window
  let st1 := { st with window := w }
  if w ≠ st.window ∧ st.pstate ≠ .stopped then handleStop st1 else st1

/-- Engine state right after `loadAudio` decodes a buffer of duration
`duration` (lines 119-135): full window, stopped, zero offset, no source. -/
def initEngine (duration : ℚ) : EngineState :=
  { window := resetWindow duration, pstate := .stopped, playbackOffset := 0,
    startTime := 0, current := none, released := [] }

/-- One user-or-clock-driven step of the component. -/
inductive EngineOp where
  | play (now : ℚ)
  | pause (now : ℚ)
  | stop
  | ended
  | editS (t : ℚ)
  | editE (t : ℚ)

def engineStep (duration : ℚ) (st : EngineState) : EngineOp → EngineState
  | .play now => clickPlay now st
  | .pause now => handlePause now st
  | .stop => clickStop st
  | .ended => naturalEnd st
  | .editS t => editStart duration t st
  | .editE t => editEnd duration t st

/-- States reachable from a freshly decoded buffer by user and clock events. -/
inductive Reachable (duration : ℚ) : EngineState → Prop where
  | init : Reachable duration (initEngine duration)
  | step {st : EngineState} (op : EngineOp) :
      Reachable duration st → Reachable duration (engineStep duration st op)

/-- The sources that could still be producing audio or fire a callback:
the held one plus any released one not yet stopped. -/
def activeSources (st : EngineState) : List AudioSource :=
  (st.current.toList ++ st.released).filter fun s => !s.stopped

/-! ## List indexing helpers -/

/-- Length of a `flatMap` over `List.range` whose blocks all have length `L`. -/
lemma length_flatMap_const {α : Type} (g : ℕ → List α) (L : ℕ)
    (hg : ∀ k, (g k).length = L) : ∀ n, ((List.range n).flatMap g).length = n * L := by
  intro n
  induction n with
  | zero => simp
  | succ n ih =>
      rw [List.range_succ, List.flatMap_append, List.length_append, ih]
      simp [hg, Nat.succ_mul]

/-- Indexing into a `flatMap` over `List.range` with constant block length `L`:
position `L * f + r` reads position `r` of block `f`. -/
lemma getElem?_flatMap_const {α : Type} (g : ℕ → List α) (L : ℕ)
    (hg : ∀ k, (g k).length = L) :
    ∀ n f r, f < n → r < L → ((List.range n).flatMap g)[L * f + r]? = (g f)[r]? := by
  intro n
  induction n with
  | zero => intro f r hf _; exact absurd hf (Nat.not_lt_zero f)
  | succ n ih =>
      intro f r hf hr
      rw [List.range_succ, List.flatMap_append]
      have hlen : ((List.range n).flatMap g).length = n * L := length_flatMap_const g L hg n
      rcases Nat.lt_or_ge f n with h | h
      · have hidx : L * f + r < ((List.range n).flatMap g).length := by
          rw [hlen]
          calc L * f + r < L * f + L := Nat.add_lt_add_left hr _
            _ = L * (f + 1) := by ring
            _ ≤ L * n := Nat.mul_le_mul_left L h
            _ = n * L := Nat.mul_comm L n
        rw [List.getElem?_append, if_pos hidx]
        exact ih f r h hr
      · have hf' : f = n := by omega
        rw [hf']
        have hge : ¬ L * n + r < ((List.range n).flatMap g).length := by
          rw [hlen, Nat.mul_comm]; omega
        rw [List.getElem?_append, if_neg hge, hlen]
        have hsub : L * n + r - n * L = r := by rw [Nat.mul_comm]; omega
        rw [hsub]
        simp

/-- Indexing past a prefix of known length 44 (the WAV header). -/
lemma getElem?_append_of_length (hdr rest : List ℕ) (n m : ℕ) (hh : hdr.length = n) :
    (hdr ++ rest)[n + m]? = rest[m]? := by
  rw [List.getElem?_append, hh, if_neg (by omega)]
  congr 1
  omega

/-! ## C3, C10: trim setter behaviour -/

/-- C3: `setStart(t)` clamps the input to `[0, duration]` (the slider bounds)
and then pins it at `end - 0.5`, leaving `end` unchanged, so the resulting
start is `min(clamp(t, 0, d), end - 0.5)`; symmetrically `setEnd(t)` yields
`end = max(clamp(t, 0, d), start + 0.5)` leaving `start` unchanged; and
`setStart(1.8)` on window `(0, 2)` with duration 2 yields `(1.5, 2)`. -/
theorem setStart_setEnd_clamp :
    (∀ duration t : ℚ, ∀ w : TrimWindow,
        setStart duration t w =
          { startT := min (max 0 (min t duration)) (w.endT - 0.5), endT := w.endT }) ∧
    (∀ duration t : ℚ, ∀ w : TrimWindow,
        setEnd duration t w =
          { startT := w.startT, endT := max (max 0 (min t duration)) (w.startT + 0.5) }) ∧
    setStart 2 1.8 { startT := 0, endT := 2 } = { startT := 1.5, endT := 2 } := by
  refine ⟨fun _ _ _ => rfl, fun _ _ _ => rfl, ?_⟩
  simp only [setStart, sliderValue, TrimWindow.mk.injEq]
  norm_num [min_def, max_def]

/-- C10: each setter modifies only its own bound: `setStart` leaves the end
bound unchanged and `setEnd` leaves the start bound unchanged. -/
theorem setters_frame_effect :
    ∀ duration t : ℚ, ∀ w : TrimWindow,
      (setStart duration t w).endT = w.endT ∧ (setEnd duration t w).startT = w.startT :=
  fun _ _ _ => ⟨rfl, rfl⟩

/-! ## C4: the trim-window invariant -/

/-- One slider edit preserves the invariant when the buffer lasts at least
the minimum segment. -/
lemma windowInv_applyEdit {duration : ℚ} (hd : 0.5 ≤ duration) {w : TrimWindow}
    (hw : windowInv duration w) (e : TrimEdit) :
    windowInv duration (applyEdit duration w e) := by
  obtain ⟨h0, hm, hdur⟩ := hw
  cases e with
  | setS t =>
      simp only [applyEdit, setStart, windowInv]
      refine ⟨?_, ?_, hdur⟩
      · have h1 : (0:ℚ) ≤ sliderValue duration t := le_max_left 0 _
        have h2 : (0:ℚ) ≤ w.endT - 0.5 := by linarith
        exact le_min h1 h2
      · have h3 := min_le_right (sliderValue duration t) (w.endT - 0.5)
        linarith
  | setE t =>
      simp only [applyEdit, setEnd, windowInv]
      refine ⟨h0, le_max_right _ _, ?_⟩
      have h1 : sliderValue duration t ≤ duration :=
        max_le (by linarith) (min_le_right t duration)
      exact max_le h1 (by linarith)

/-- The claim C4 as stated is false: with a buffer shorter than the minimum
segment (duration 1/4), the window reached from `reset` by zero edits is
`(0, 1/4)`, which violates `start + 0.5 ≤ end`. -/
theorem trim_invariant_counterexample :
    ¬ windowInv (1/4) (applyEdits (1/4) [] (resetWindow (1/4))) := by
  simp only [windowInv, applyEdits, List.foldl_nil, resetWindow, not_and]
  intro _ h
  norm_num at h

/-- C4 (amended): for every duration at least `minSegmentSeconds = 0.5`, every
window reachable from `reset(duration)` by a finite sequence of `setStart` /
`setEnd` edits with arbitrary inputs satisfies `0 ≤ start`,
`start + 0.5 ≤ end` and `end ≤ duration`. -/
theorem trim_invariant_reachable (duration : ℚ) (hd : 0.5 ≤ duration)
    (es : List TrimEdit) :
    windowInv duration (applyEdits duration es (resetWindow duration)) := by
  have hinit : windowInv duration (resetWindow duration) := by
    refine ⟨le_refl 0, ?_, le_refl duration⟩
    simp only [resetWindow]
    linarith
  suffices H : ∀ (l : List TrimEdit) (w : TrimWindow), windowInv duration w →
      windowInv duration (applyEdits duration l w) from H es _ hinit
  intro l
  induction l with
  | nil => intro w hw; simpa [applyEdits] using hw
  | cons e l ih =>
      intro w hw
      simpa [applyEdits, List.foldl_cons] using ih _ (windowInv_applyEdit hd hw e)

/-- Witness for C4 (amended) at duration 2 and the single edit
`setStart(1.8)`. -/
theorem trim_invariant_reachable_witness :
    (0.5 : ℚ) ≤ 2 ∧ windowInv 2 (applyEdits 2 [TrimEdit.setS 1.8] (resetWindow 2)) :=
  ⟨by norm_num, trim_invariant_reachable 2 (by norm_num) [TrimEdit.setS 1.8]⟩

/-! ## C8: empty frame range gives an empty, error-free result -/

/-- C8: whenever the computed frame count is `≤ 0`, the encoder returns the
empty byte stream (a zero-length payload) — it is a total function, so no
error is raised. -/
theorem empty_window_empty_wav (b : SampleBuffer) (start endT : ℚ)
    (h : frameCount b start endT ≤ 0) :
    audioBufferToWav b start endT = [] ∧ (audioBufferToWav b start endT).length = 0 := by
  simp [audioBufferToWav, h]

/-- Witness for C8: a 5-frame buffer at 10 Hz with window `(1, 1/2)` has
frame count `-5 ≤ 0` and encodes to the empty stream. -/
theorem empty_window_empty_wav_witness :
    frameCount ⟨10, 1, 5, fun _ _ => 0⟩ 1 (1/2) ≤ 0 ∧
      audioBufferToWav ⟨10, 1, 5, fun _ _ => 0⟩ 1 (1/2) = [] := by
  have h : frameCount ⟨10, 1, 5, fun _ _ => 0⟩ 1 (1/2) ≤ 0 := by
    simp only [frameCount, actualEndSample, endSample, startSample]
    norm_num
  exact ⟨h, (empty_window_empty_wav _ _ _ h).1⟩

/-! ## C9: stop is unconditional and idempotent -/

/-- Shared description of `handleStop`: from any state it yields `stopped`
with offset 0 and no held source, and a second `handleStop` is a no-op. -/
lemma handleStop_spec (st : EngineState) :
    (handleStop st).pstate = .stopped ∧ (handleStop st).playbackOffset = 0 ∧
    (handleStop st).current = none ∧ handleStop (handleStop st) = handleStop st := by
  cases hc : st.current <;> simp [handleStop, stopPlayback, hc]

/-- C9: `handleStop` from any state yields state `stopped` with offset 0,
drops any held source, and is idempotent. -/
theorem stop_always_stops :
    ∀ st : EngineState,
      (handleStop st).pstate = .stopped ∧ (handleStop st).playbackOffset = 0 ∧
      (handleStop st).current = none ∧ handleStop (handleStop st) = handleStop st :=
  fun st => handleStop_spec st

/-! ## C2: output length and header -/

lemma wavHeader_length (len rate ch : ℕ) : (wavHeader len rate ch).length = 44 := rfl

lemma int16LE_length (v : ℤ) : (int16LE v).length = 2 := rfl

lemma wavFrames_length (b : SampleBuffer) (start endT : ℚ) :
    (wavFrames b start endT).length =
      (frameCount b start endT).toNat * (b.numberOfChannels * 2) := by
  simp only [wavFrames]
  exact length_flatMap_const _ (b.numberOfChannels * 2)
    (fun f => length_flatMap_const _ 2 (fun ch => int16LE_length _) b.numberOfChannels) _

lemma wav_length_of_pos (b : SampleBuffer) (start endT : ℚ)
    (h : 0 < frameCount b start endT) :
    (audioBufferToWav b start endT).length =
      44 + (frameCount b start endT).toNat * b.numberOfChannels * 2 := by
  have hne : ¬ frameCount b start endT ≤ 0 := not_le.mpr h
  simp only [audioBufferToWav, if_neg hne, List.length_append, wavHeader_length,
    wavFrames_length]
  ring

/-- C2: for a non-empty frame range the encoder output is exactly
`44 + frameCount * channelCount * 2` bytes: a 44-byte header equal to
`wavHeader` for the buffer's sample rate and channel count (PCM format,
block-align `channelCount * 2`, 16 bits per sample, data-chunk length field
`frameCount * channelCount * 2`) followed by exactly
`frameCount * channelCount * 2` data bytes; in particular a buffer with
sample rate 44100, 1 channel and 88200 frames (2.0 s) with window
`(0, 2)` encodes to `44 + 88200 * 2` bytes. -/
theorem wav_length_and_header (b : SampleBuffer) (start endT : ℚ)
    (h : 0 < frameCount b start endT) :
    (audioBufferToWav b start endT).length =
        44 + (frameCount b start endT).toNat * b.numberOfChannels * 2 ∧
    ((audioBufferToWav b start endT).drop 44).length =
        (frameCount b start endT).toNat * b.numberOfChannels * 2 ∧
    (audioBufferToWav b start endT).take 44 =
        wavHeader ((frameCount b start endT).toNat * b.numberOfChannels * 2 + 44)
          b.sampleRate b.numberOfChannels ∧
    (∀ data : ℕ → ℤ → ℚ,
        (audioBufferToWav ⟨44100, 1, 88200, data⟩ 0 2).length = 44 + 88200 * 2) := by
  have hne : ¬ frameCount b start endT ≤ 0 := not_le.mpr h
  refine ⟨wav_length_of_pos b start endT h, ?_, ?_, ?_⟩
  · rw [List.length_drop, wav_length_of_pos b start endT h]
    omega
  · have hmul : (frameCount b start endT).toNat * b.numberOfChannels * 2 =
        (frameCount b start endT).toNat * (b.numberOfChannels * 2) := by ring
    have htake := List.take_left
      (wavHeader ((frameCount b start endT).toNat * b.numberOfChannels * 2 + 44)
        b.sampleRate b.numberOfChannels) (wavFrames b start endT)
    rw [wavHeader_length] at htake
    simp only [audioBufferToWav, if_neg hne]
    exact htake
  · intro data
    have hfc : frameCount ⟨44100, 1, 88200, data⟩ 0 2 = 88200 := by
      simp only [frameCount, actualEndSample, endSample, startSample]
      norm_num
    rw [wav_length_of_pos _ 0 2 (by rw [hfc]; norm_num), hfc]
    rfl

/-- Witness for C2: a 5-frame, 2-channel buffer at 10 Hz with window
`(0, 1/2)` has frame count 5 and the stated length. -/
theorem wav_length_and_header_witness :
    0 < frameCount ⟨10, 2, 5, fun _ _ => 0⟩ 0 (1/2) ∧
    (audioBufferToWav ⟨10, 2, 5, fun _ _ => 0⟩ 0 (1/2)).length =
      44 + (frameCount ⟨10, 2, 5, fun _ _ => 0⟩ 0 (1/2)).toNat * 2 * 2 := by
  have h : 0 < frameCount ⟨10, 2, 5, fun _ _ => 0⟩ 0 (1/2) := by
    simp only [frameCount, actualEndSample, endSample, startSample]
    norm_num
  exact ⟨h, (wav_length_and_header _ 0 (1/2) h).1⟩

/-! ## C1: interleaved sample serialization -/

/-- C1: for a non-empty frame range, channel count ≥ 1 (implied by
`ch < numberOfChannels`), and every in-range frame `startSample + f`
(`0 ≤ f < frameCount`) and channel `ch`, the output bytes at offsets
`44 + 2 * (numberOfChannels * f + ch)` and the next position are the
little-endian two's-complement image of the 16-bit value obtained by
clamping the sample to `[-1, 1]`, scaling by 32768 when negative and 32767
otherwise, and truncating toward zero. -/
theorem wav_sample_bytes (b : SampleBuffer) (start endT : ℚ) (f ch : ℕ)
    (hf : (f : ℤ) < frameCount b start endT) (hch : ch < b.numberOfChannels) :
    (audioBufferToWav b start endT)[44 + 2 * (b.numberOfChannels * f + ch)]? =
      some ((convertSample (b.channelData ch (startSample b start + f)) % 65536).toNat % 256) ∧
    (audioBufferToWav b start endT)[44 + 2 * (b.numberOfChannels * f + ch) + 1]? =
      some ((convertSample (b.channelData ch (startSample b start + f)) % 65536).toNat / 256) := by
  have hpos : ¬ frameCount b start endT ≤ 0 := by
    have h0 : (0:ℤ) ≤ (f : ℤ) := Int.ofNat_nonneg f
    omega
  have hfN : f < (frameCount b start endT).toNat := by omega
  have hginner : ∀ k : ℕ, ((List.range b.numberOfChannels).flatMap fun c =>
      int16LE (convertSample (b.channelData c (startSample b start + k)))).length
        = b.numberOfChannels * 2 :=
    fun k => length_flatMap_const _ 2 (fun c => int16LE_length _) _
  have key : ∀ j, j < 2 →
      (audioBufferToWav b start endT)[44 + (2 * (b.numberOfChannels * f + ch) + j)]? =
        (int16LE (convertSample (b.channelData ch (startSample b start + f))))[j]? := by
    intro j hj
    simp only [audioBufferToWav, if_neg hpos]
    rw [getElem?_append_of_length _ _ 44 _ (wavHeader_length _ _ _)]
    simp only [wavFrames]
    have hidx : 2 * (b.numberOfChannels * f + ch) + j =
        (b.numberOfChannels * 2) * f + (2 * ch + j) := by ring
    rw [hidx]
    rw [getElem?_flatMap_const _ (b.numberOfChannels * 2) hginner _ f (2 * ch + j) hfN
      (by omega)]
    rw [getElem?_flatMap_const _ 2 (fun c => int16LE_length _) _ ch j hch hj]
  have k0 := key 0 (by omega)
  have k1 := key 1 (by omega)
  constructor
  · simpa [int16LE] using k0
  · have hsh : 44 + 2 * (b.numberOfChannels * f + ch) + 1 =
        44 + (2 * (b.numberOfChannels * f + ch) + 1) := by omega
    rw [hsh]
    simpa [int16LE] using k1

/-- Witness for C1: a mono buffer of constant sample `1/2` at 4 Hz, window
`(0, 1)`, frame 0, channel 0: `convertSample (1/2) = ⌊32767/2⌋ = 16383`,
serialized little-endian as bytes 255 and 63 at offsets 44 and 45. -/
theorem wav_sample_bytes_witness :
    ((0:ℕ) : ℤ) < frameCount ⟨4, 1, 4, fun _ _ => 1/2⟩ 0 1 ∧
    (0:ℕ) < (SampleBuffer.mk 4 1 4 (fun _ _ => 1/2)).numberOfChannels ∧
    (audioBufferToWav ⟨4, 1, 4, fun _ _ => 1/2⟩ 0 1)[44]? = some 255 ∧
    (audioBufferToWav ⟨4, 1, 4, fun _ _ => 1/2⟩ 0 1)[45]? = some 63 := by
  have h1 : ((0:ℕ) : ℤ) < frameCount ⟨4, 1, 4, fun _ _ => 1/2⟩ 0 1 := by
    simp only [frameCount, actualEndSample, endSample, startSample]
    norm_num
  have h2 : (0:ℕ) < (SampleBuffer.mk 4 1 4 (fun _ _ => 1/2)).numberOfChannels := by
    norm_num
  obtain ⟨ha, hb⟩ := wav_sample_bytes ⟨4, 1, 4, fun _ _ => 1/2⟩ 0 1 0 0 h1 h2
  have hv : convertSample ((1:ℚ)/2) = 16383 := by
    simp only [convertSample, truncQ]
    norm_num [min_def, max_def]
  have harg : (SampleBuffer.mk 4 1 4 (fun _ _ => (1:ℚ)/2)).channelData 0
      (startSample (SampleBuffer.mk 4 1 4 (fun _ _ => (1:ℚ)/2)) 0 + ((0:ℕ) : ℤ)) =
        (1:ℚ)/2 := rfl
  rw [harg, hv] at ha hb
  have hbyte0 : ((16383:ℤ) % 65536).toNat % 256 = 255 := rfl
  have hbyte1 : ((16383:ℤ) % 65536).toNat / 256 = 63 := rfl
  rw [hbyte0] at ha
  rw [hbyte1] at hb
  refine ⟨h1, h2, ?_, ?_⟩
  · simpa using ha
  · simpa using hb

/-! ## Playback-engine helper lemmas -/

lemma stopPlayback_current (st : EngineState) : (stopPlayback st).current = none := by
  cases hc : st.current <;> simp [stopPlayback, hc]

lemma stopPlayback_of_current_none {st : EngineState} (h : st.current = none) :
    stopPlayback st = st := by
  simp [stopPlayback, h]

lemma stopPlayback_window (st : EngineState) : (stopPlayback st).window = st.window := by
  cases hc : st.current <;> simp [stopPlayback, hc]

lemma stopPlayback_pstate (st : EngineState) : (stopPlayback st).pstate = st.pstate := by
  cases hc : st.current <;> simp [stopPlayback, hc]

lemma stopPlayback_playbackOffset (st : EngineState) :
    (stopPlayback st).playbackOffset = st.playbackOffset := by
  cases hc : st.current <;> simp [stopPlayback, hc]

lemma stopPlayback_startTime (st : EngineState) :
    (stopPlayback st).startTime = st.startTime := by
  cases hc : st.current <;> simp [stopPlayback, hc]

/-! ## C5: pause accumulates the elapsed time; play resumes from it -/

/-- C5: `pause()` in state `playing` stops the held source, adds the elapsed
engine-clock time since playback began to the stored offset (accumulating
onto the prior offset), and enters `paused`; a subsequent `play()` with the
window unchanged, when the accumulated offset is still inside the window,
resumes from that offset and schedules exactly
`windowDuration - offsetSeconds` of audio starting at buffer position
`trimStart + offsetSeconds`. -/
theorem pause_resume_accumulates (st : EngineState) (now now2 : ℚ)
    (hp : st.pstate = .playing)
    (hlt : st.playbackOffset + (now - st.startTime) < st.window.endT - st.window.startT) :
    (handlePause now st).pstate = .paused ∧
    (handlePause now st).playbackOffset = st.playbackOffset + (now - st.startTime) ∧
    (handlePause now st).current = none ∧
    (handlePause now st).window = st.window ∧
    (handlePlay now2 (handlePause now st)).pstate = .playing ∧
    (handlePlay now2 (handlePause now st)).playbackOffset =
      st.playbackOffset + (now - st.startTime) ∧
    (handlePlay now2 (handlePause now st)).current =
      some { sched := { bufferOffset :=
                          st.window.startT + (st.playbackOffset + (now - st.startTime)),
                        duration := (st.window.endT - st.window.startT) -
                          (st.playbackOffset + (now - st.startTime)) },
             stopped := false, onendedSet := true } := by
  have hnp : ¬ st.pstate ≠ PState.playing := by simp [hp]
  have hpause : handlePause now st =
      { stopPlayback st with
          playbackOffset := st.playbackOffset + (now - st.startTime),
          pstate := .paused } := by
    simp [handlePause, hnp]
  have hacc : ¬ (st.window.endT - st.window.startT ≤
      st.playbackOffset + (now - st.startTime)) := not_le.mpr hlt
  have hpd : ¬ (st.window.endT - st.window.startT -
      (st.playbackOffset + (now - st.startTime)) ≤ 0) := by
    intro hcon; linarith
  refine ⟨by simp [hpause], by simp [hpause, stopPlayback_playbackOffset], ?_, ?_, ?_, ?_, ?_⟩
  · simp [hpause, stopPlayback_current]
  · simp [hpause, stopPlayback_window]
  all_goals
    cases hc : st.current <;>
      simp [hpause, handlePlay, stopPlayback, hc, ge_iff_le, hacc, hpd]

/-- Witness for C5: st playing on window `(0, 2)` with offset 0 and start
time 3; pausing at clock time 4 gives offset 1 and the next play schedules
1 second starting at buffer position 1. -/
theorem pause_resume_accumulates_witness :
    (EngineState.mk ⟨0, 2⟩ .playing 0 3
        (some ⟨⟨0, 2⟩, false, true⟩) []).pstate = PState.playing ∧
    ((0:ℚ) + ((4:ℚ) - 3) < 2 - 0) ∧
    (handlePause 4 (EngineState.mk ⟨0, 2⟩ .playing 0 3
        (some ⟨⟨0, 2⟩, false, true⟩) [])).playbackOffset = 1 ∧
    (handlePlay 9 (handlePause 4 (EngineState.mk ⟨0, 2⟩ .playing 0 3
        (some ⟨⟨0, 2⟩, false, true⟩) []))).current =
      some { sched := { bufferOffset := 1, duration := 1 },
             stopped := false, onendedSet := true } := by
  have h := pause_resume_accumulates
    (EngineState.mk ⟨0, 2⟩ .playing 0 3 (some ⟨⟨0, 2⟩, false, true⟩) []) 4 9
    rfl (by norm_num)
  obtain ⟨-, h2, -, -, -, -, h7⟩ := h
  refine ⟨rfl, by norm_num, ?_, ?_⟩
  · rw [h2]; norm_num
  · rw [h7]
    norm_num

/-! ## C7: editing the trim window forces an implicit stop -/

/-- C7: whenever a slider edit actually changes the trim window while the
playback state is not `stopped`, the `useEffect` on the window forces an
implicit stop: the state becomes `stopped`, the offset becomes 0 and the
source is dropped; a `play()` after such an edit therefore starts from the
beginning of the new window (offset 0, scheduling the whole new window). -/
theorem edit_forces_stop (duration t now : ℚ) (st : EngineState)
    (hns : st.pstate ≠ .stopped) :
    (setStart duration t st.window ≠ st.window →
      ((editStart duration t st).pstate = .stopped ∧
       (editStart duration t st).playbackOffset = 0 ∧
       (editStart duration t st).current = none ∧
       (editStart duration t st).window = setStart duration t st.window ∧
       (0 < (setStart duration t st.window).endT - (setStart duration t st.window).startT →
         (handlePlay now (editStart duration t st)).playbackOffset = 0 ∧
         (handlePlay now (editStart duration t st)).current =
           some { sched := { bufferOffset := (setStart duration t st.window).startT,
                             duration := (setStart duration t st.window).endT -
                               (setStart duration t st.window).startT },
                  stopped := false, onendedSet := true }))) ∧
    (setEnd duration t st.window ≠ st.window →
      ((editEnd duration t st).pstate = .stopped ∧
       (editEnd duration t st).playbackOffset = 0 ∧
       (editEnd duration t st).current = none ∧
       (editEnd duration t st).window = setEnd duration t st.window ∧
       (0 < (setEnd duration t st.window).endT - (setEnd duration t st.window).startT →
         (handlePlay now (editEnd duration t st)).playbackOffset = 0 ∧
         (handlePlay now (editEnd duration t st)).current =
           some { sched := { bufferOffset := (setEnd duration t st.window).startT,
                             duration := (setEnd duration t st.window).endT -
                               (setEnd duration t st.window).startT },
                  stopped := false, onendedSet := true }))) := by
  constructor
  · intro hch
    have hed : editStart duration t st =
        handleStop { st with window := setStart duration t st.window } := by
      simp [editStart, hch, hns]
    have hst := handleStop_spec { st with window := setStart duration t st.window }
    have hw : (editStart duration t st).window = setStart duration t st.window := by
      rw [hed]
      cases hc : ({ st with window := setStart duration t st.window } : EngineState).current <;>
        simp [handleStop, stopPlayback, hc]
    refine ⟨by rw [hed]; exact hst.1, by rw [hed]; exact hst.2.1,
      by rw [hed]; exact hst.2.2.1, hw, ?_⟩
    intro hpos
    have hnd : ¬ ((setStart duration t st.window).endT -
        (setStart duration t st.window).startT ≤ 0) := not_le.mpr hpos
    have hcur : (editStart duration t st).current = none := by
      rw [hed]; exact hst.2.2.1
    have hoff : (editStart duration t st).playbackOffset = 0 := by
      rw [hed]; exact hst.2.1
    constructor <;>
      simp [handlePlay, stopPlayback_of_current_none hcur, hoff, hw, ge_iff_le, hnd]
  · intro hch
    have hed : editEnd duration t st =
        handleStop { st with window := setEnd duration t st.window } := by
      simp [editEnd, hch, hns]
    have hst := handleStop_spec { st with window := setEnd duration t st.window }
    have hw : (editEnd duration t st).window = setEnd duration t st.window := by
      rw [hed]
      cases hc : ({ st with window := setEnd duration t st.window } : EngineState).current <;>
        simp [handleStop, stopPlayback, hc]
    refine ⟨by rw [hed]; exact hst.1, by rw [hed]; exact hst.2.1,
      by rw [hed]; exact hst.2.2.1, hw, ?_⟩
    intro hpos
    have hnd : ¬ ((setEnd duration t st.window).endT -
        (setEnd duration t st.window).startT ≤ 0) := not_le.mpr hpos
    have hcur : (editEnd duration t st).current = none := by
      rw [hed]; exact hst.2.2.1
    have hoff : (editEnd duration t st).playbackOffset = 0 := by
      rw [hed]; exact hst.2.1
    constructor <;>
      simp [handlePlay, stopPlayback_of_current_none hcur, hoff, hw, ge_iff_le, hnd]

/-- Witness for C7: a playing state on window `(0, 2)` with offset `1/2`;
`setStart(1)` changes the window to `(1, 2)`, forcing stop, and the next
play schedules the whole new window starting at 1. -/
theorem edit_forces_stop_witness :
    (EngineState.mk ⟨0, 2⟩ .playing (1/2) 0 none []).pstate ≠ PState.stopped ∧
    setStart 2 1 (⟨0, 2⟩ : TrimWindow) ≠ (⟨0, 2⟩ : TrimWindow) ∧
    (editStart 2 1 (EngineState.mk ⟨0, 2⟩ .playing (1/2) 0 none [])).pstate =
      PState.stopped ∧
    (editStart 2 1 (EngineState.mk ⟨0, 2⟩ .playing (1/2) 0 none [])).playbackOffset = 0 ∧
    (handlePlay 7 (editStart 2 1 (EngineState.mk ⟨0, 2⟩ .playing (1/2) 0 none []))).current =
      some { sched := { bufferOffset := 1, duration := 1 },
             stopped := false, onendedSet := true } := by
  have hw : setStart 2 1 (⟨0, 2⟩ : TrimWindow) = (⟨1, 2⟩ : TrimWindow) := by
    simp only [setStart, sliderValue, TrimWindow.mk.injEq]
    norm_num [min_def, max_def]
  have hch : setStart 2 1 (⟨0, 2⟩ : TrimWindow) ≠ (⟨0, 2⟩ : TrimWindow) := by
    rw [hw]
    simp only [ne_eq, TrimWindow.mk.injEq]
    norm_num
  have hns : (EngineState.mk ⟨0, 2⟩ .playing (1/2) 0 none []).pstate ≠ PState.stopped := by
    decide
  have h := (edit_forces_stop 2 1 7 (EngineState.mk ⟨0, 2⟩ .playing (1/2) 0 none []) hns).1 hch
  obtain ⟨h1, h2, -, hwin, h5⟩ := h
  have hpos : 0 < (setStart 2 1 (⟨0, 2⟩ : TrimWindow)).endT -
      (setStart 2 1 (⟨0, 2⟩ : TrimWindow)).startT := by
    rw [hw]; norm_num
  obtain ⟨-, hcur⟩ := h5 hpos
  refine ⟨hns, hch, h1, h2, ?_⟩
  rw [hcur, hw]
  norm_num

/-! ## C6: play while playing is ignored; at most one active source -/

/-- Invariant: every source whose reference has been dropped was stopped and
had its `onended` callback removed first. -/
def releasedOk (st : EngineState) : Prop :=
  ∀ s ∈ st.released, s.stopped = true ∧ s.onendedSet = false

lemma releasedOk_stopPlayback {st : EngineState} (h : releasedOk st) :
    releasedOk (stopPlayback st) := by
  cases hc : st.current with
  | none => simpa [stopPlayback, hc] using h
  | some s =>
      intro x hx
      simp only [stopPlayback, hc, List.mem_cons] at hx
      rcases hx with rfl | hx
      · exact ⟨rfl, rfl⟩
      · exact h x hx

lemma released_handlePlay (now : ℚ) (st : EngineState) :
    (handlePlay now st).released = (stopPlayback st).released := by
  simp only [handlePlay]
  split <;> split <;> rfl

lemma releasedOk_handlePlay {st : EngineState} (now : ℚ) (h : releasedOk st) :
    releasedOk (handlePlay now st) := by
  intro x hx
  rw [released_handlePlay] at hx
  exact releasedOk_stopPlayback h x hx

lemma releasedOk_clickPlay {st : EngineState} (now : ℚ) (h : releasedOk st) :
    releasedOk (clickPlay now st) := by
  by_cases hp : st.pstate = PState.playing
  · simpa [clickPlay, hp] using h
  · intro x hx
    apply releasedOk_handlePlay now h x
    simpa [clickPlay, hp] using hx

lemma releasedOk_handlePause {st : EngineState} (now : ℚ) (h : releasedOk st) :
    releasedOk (handlePause now st) := by
  by_cases hp : st.pstate ≠ PState.playing
  · simpa [handlePause, hp] using h
  · intro x hx
    apply releasedOk_stopPlayback h x
    simpa [handlePause, hp] using hx

lemma releasedOk_handleStop {st : EngineState} (h : releasedOk st) :
    releasedOk (handleStop st) := by
  intro x hx
  exact releasedOk_stopPlayback h x hx

lemma releasedOk_clickStop {st : EngineState} (h : releasedOk st) :
    releasedOk (clickStop st) := by
  by_cases hp : st.pstate = PState.stopped
  · simpa [clickStop, hp] using h
  · intro x hx
    apply releasedOk_handleStop h x
    simpa [clickStop, hp] using hx

lemma releasedOk_naturalEnd {st : EngineState} (h : releasedOk st) :
    releasedOk (naturalEnd st) := by
  intro x hx
  apply h x
  cases hc : st.current with
  | none => simpa [naturalEnd, hc] using hx
  | some s =>
      by_cases he : s.onendedSet <;> simpa [naturalEnd, hc, he] using hx

lemma releasedOk_editStart {st : EngineState} (duration t : ℚ) (h : releasedOk st) :
    releasedOk (editStart duration t st) := by
  have hmid : releasedOk { st with window := setStart duration t st.window } := h
  simp only [editStart]
  split
  · exact releasedOk_handleStop hmid
  · exact hmid

lemma releasedOk_editEnd {st : EngineState} (duration t : ℚ) (h : releasedOk st) :
    releasedOk (editEnd duration t st) := by
  have hmid : releasedOk { st with window := setEnd duration t st.window } := h
  simp only [editEnd]
  split
  · exact releasedOk_handleStop hmid
  · exact hmid

lemma releasedOk_reachable {duration : ℚ} {st : EngineState}
    (h : Reachable duration st) : releasedOk st := by
  induction h with
  | init => intro x hx; simp [initEngine] at hx
  | step op h ih =>
      cases op with
      | play now => exact releasedOk_clickPlay now ih
      | pause now => exact releasedOk_handlePause now ih
      | stop => exact releasedOk_clickStop ih
      | ended => exact releasedOk_naturalEnd ih
      | editS t => exact releasedOk_editStart _ t ih
      | editE t => exact releasedOk_editEnd _ t ih

/-- C6: in every reachable engine state, a play request while already
`playing` is ignored (the play button is disabled, so the click is a no-op);
every source whose reference was dropped had been stopped and had its
`onended` callback removed before any new source was started; and at most
one source is active (not stopped) at any instant. -/
theorem single_active_source (duration now : ℚ) (st : EngineState)
    (h : Reachable duration st) :
    (st.pstate = .playing → clickPlay now st = st) ∧
    (∀ s ∈ st.released, s.stopped = true ∧ s.onendedSet = false) ∧
    (activeSources st).length ≤ 1 := by
  have hr : releasedOk st := releasedOk_reachable h
  refine ⟨fun hp => by simp [clickPlay, hp], hr, ?_⟩
  have hfil : st.released.filter (fun s => !s.stopped) = [] := by
    rw [List.filter_eq_nil_iff]
    intro a ha
    simp [(hr a ha).1]
  simp only [activeSources, List.filter_append, hfil, List.append_nil]
  calc (st.current.toList.filter fun s => !s.stopped).length
      ≤ st.current.toList.length := List.length_filter_le _ _
    _ ≤ 1 := by cases st.current <;> simp

/-- Witness for C6: the state reached by `play` at time 0 then `stop`,
from a 2-second buffer (its `released` list holds the stopped, detached
first source). -/
theorem single_active_source_witness :
    ((engineStep 2 (engineStep 2 (initEngine 2) (EngineOp.play 0)) EngineOp.stop).pstate =
        PState.playing →
      clickPlay 5 (engineStep 2 (engineStep 2 (initEngine 2) (EngineOp.play 0))
          EngineOp.stop) =
        engineStep 2 (engineStep 2 (initEngine 2) (EngineOp.play 0)) EngineOp.stop) ∧
    (∀ s ∈ (engineStep 2 (engineStep 2 (initEngine 2) (EngineOp.play 0))
        EngineOp.stop).released, s.stopped = true ∧ s.onendedSet = false) ∧
    (activeSources (engineStep 2 (engineStep 2 (initEngine 2) (EngineOp.play 0))
        EngineOp.stop)).length ≤ 1 :=
  single_active_source 2 5 _
    (Reachable.step EngineOp.stop (Reachable.step (EngineOp.play 0) Reachable.init))
